import Mathlib

set_option maxRecDepth 8000

/-
Verification development for JustPressThis.py (ValhallaSoftware).

The program is embedded shallowly:
  * Python strings are modelled as lists of code points (`Str := List Char`);
    Python's `str.split`, `str.strip`, `str.startswith`, the `in` operator and
    `int()` are modelled by executable Lean functions below.
  * `fetch_product_details` performs external I/O (Playwright).  The outcomes of
    its external calls are captured in a `FetchEnv` record: whether `page.goto`
    succeeds, whether each of the two awaited selectors appears within the
    5000 ms bound (Playwright's `wait_for_selector` raises `TimeoutError` when
    the selector does not appear within the timeout), and what
    `page.query_selector(...)` finds at extraction time.  The function is then a
    pure function of that record, together with an event trace recording the
    lifecycle of the rendering context (exiting the `with sync_playwright()`
    block - normally or through an exception - stops the Playwright driver,
    which closes every browser launched from it).
  * `process_csv` is modelled on an already-loaded list of rows with the four
    columns the code reads; the network fetch is passed in as an oracle
    `Str → Option Str × Option Str` giving the result of
    `fetch_product_details` for each fetched link.  Excel/file output is
    modelled as the five tables the code writes.
-/

/-- Python strings are sequences of code points; `List Char` models them
(`String.data` converts a Lean literal). -/
abbrev Str := List Char

/-- Whitespace test backing the model of Python `str.strip()`
(space, tab, newline, carriage return). -/
def isWs (c : Char) : Bool := c.toNat = 32 || c.toNat = 9 || c.toNat = 10 || c.toNat = 13

/-- ASCII digit test backing the model of Python `int()`. -/
def isDig (c : Char) : Bool := 48 ≤ c.toNat && c.toNat ≤ 57

/-- Python `str.strip()`: remove whitespace from both ends. -/
def pyStrip (s : Str) : Str := ((s.dropWhile isWs).reverse.dropWhile isWs).reverse

/-- Prefix test (Python `str.startswith`, also used to locate separator
occurrences for `str.split`). -/
def leadsWith : Str → Str → Bool
  | [], _ => true
  | _ :: _, [] => false
  | a :: as, b :: bs => a == b && leadsWith as bs

/-- Substring containment: Python's `needle in haystack` on strings. -/
def containsSub (sep : Str) : Str → Bool
  | [] => sep.isEmpty
  | c :: rest => leadsWith sep (c :: rest) || containsSub sep rest

/-- Fuelled worker for `pySplit`; structural recursion on the fuel keeps the
function kernel-reducible.  With fuel ≥ length of the string it computes
Python's `str.split(sep)` for a non-empty `sep`: scan left to right, cut at
each (non-overlapping) occurrence of `sep`. -/
def pySplitF : Nat → Str → Str → List Str
  | 0, _, s => [s]
  | _ + 1, _, [] => [[]]
  | f + 1, sep, c :: rest =>
    if leadsWith sep (c :: rest) then
      [] :: pySplitF f sep (List.drop sep.length (c :: rest))
    else
      match pySplitF f sep rest with
      | [] => [[c]]
      | t :: ts => (c :: t) :: ts

/-- Python `s.split(sep)` for non-empty `sep` (the program always splits on
non-empty literals). -/
def pySplit (sep s : Str) : List Str :=
  if sep.isEmpty then [s] else pySplitF s.length sep s

/-- Digit-run parser for Python `int()` after the optional sign: a base-10
digit string, allowing single underscores between digits (Python's grammar). -/
def pyDigitsGo (acc : Nat) : Str → Option Nat
  | [] => some acc
  | c :: rest =>
    if isDig c then pyDigitsGo (acc * 10 + (c.toNat - 48)) rest
    else if c = '_' then
      match rest with
      | [] => none
      | d :: rest2 => if isDig d then pyDigitsGo (acc * 10 + (d.toNat - 48)) rest2 else none
    else none

/-- Nonempty digit run, as required by Python `int()` after the sign. -/
def pyIntDigits : Str → Option Nat
  | [] => none
  | c :: rest => if isDig c then pyDigitsGo (c.toNat - 48) rest else none

/-- Python `int(s)`: strip whitespace, optional sign, base-10 digits;
`none` models the `ValueError` raised on malformed input. -/
def pyInt (s : Str) : Option Int :=
  match pyStrip s with
  | [] => none
  | c :: rest =>
    if c = '-' then (pyIntDigits rest).map (fun n => -(n : Int))
    else if c = '+' then (pyIntDigits rest).map (fun n => (n : Int))
    else (pyIntDigits (c :: rest)).map (fun n => (n : Int))

/-- Python truthiness of an `Optional[str]`: `None` and the empty string are
falsy; every other string (including the sentinel strings) is truthy. -/
def pyFalsy : Option Str → Bool
  | none => true
  | some s => s.isEmpty

/-- Fuelled decimal rendering of a natural number (used only to render the
quantity when building a synthetic well-formed Item Description). -/
def natReprF : Nat → Nat → Str
  | 0, _ => []
  | f + 1, n =>
    if n < 10 then [Char.ofNat (48 + n)]
    else natReprF f (n / 10) ++ [Char.ofNat (48 + n % 10)]

/-- Decimal rendering of a natural number. -/
def natRepr (n : Nat) : Str := natReprF (n + 1) n

/-- Decimal rendering of an integer. -/
def intRepr (q : Int) : Str := if q < 0 then '-' :: natRepr q.natAbs else natRepr q.toNat

/-- Lexicographic (code-point) string order, `a ≤ b`; this is how pandas
compares the string-typed `Date` column in `sort_values(by='Date')`. -/
def strLe : Str → Str → Bool
  | [], _ => true
  | _ :: _, [] => false
  | a :: as, b :: bs => if a < b then true else if b < a then false else strLe as bs

/-- Ordered insertion used to model `sort_values` (only the sortedness and the
membership of the result matter to the claims). -/
def insertSorted (le : α → α → Bool) (x : α) : List α → List α
  | [] => [x]
  | y :: ys => if le x y then x :: y :: ys else y :: insertSorted le x ys

/-- Insertion sort by a boolean relation. -/
def sortBy (le : α → α → Bool) (l : List α) : List α := l.foldr (insertSorted le) []

/-- Marker of the source line `format_phone_number`: prefix an apostrophe so a
spreadsheet consumer treats the value as literal text. -/
def format_phone_number (phone : Str) : Str := Char.ofNat 39 :: phone

/-- Outcome record for the external calls made by one `fetch_product_details`
call: `gotoOk` is whether `page.goto(url)` returns without raising;
`refAppears` / `priceAppears` are whether each awaited selector appears within
the 5000 ms bound (`page.wait_for_selector` raises `TimeoutError` otherwise);
`refElem` / `priceElem` are the `inner_text()` of the element found by
`page.query_selector` at extraction time, or `none` when it finds nothing. -/
structure FetchEnv where
  gotoOk : Bool
  refAppears : Bool
  priceAppears : Bool
  refElem : Option Str
  priceElem : Option Str
deriving DecidableEq

/-- Sentinel substituted for the reference field (line 38 of the source). -/
def refSentinel : Str := "Reference not found".data

/-- Sentinel substituted for the price field (line 39 of the source). -/
def priceSentinel : Str := "Price not found".data

/-- Reference text produced on the success path of `fetch_product_details`:
trimmed element text, or the sentinel when `query_selector` finds nothing. -/
def refResult (env : FetchEnv) : Str :=
  match env.refElem with
  | some t => pyStrip t
  | none => refSentinel

/-- Price text produced on the success path of `fetch_product_details`. -/
def priceResult (env : FetchEnv) : Str :=
  match env.priceElem with
  | some t => pyStrip t
  | none => priceSentinel

/-- Lifecycle events of one `fetch_product_details` call.  `playwrightStop` is
the teardown performed on exiting the `with sync_playwright()` block (it stops
the driver, closing every browser launched from it); `browserClose` is the
explicit `browser.close()` on the success path. -/
inductive FEvent where
  | launch
  | goto
  | waitRef
  | waitPrice
  | extract
  | browserClose
  | playwrightStop
deriving DecidableEq

/-- Model of `fetch_product_details` (lines 21-50): result pair plus the event
trace of the rendering context.  An exception on `goto` or a `TimeoutError`
from either `wait_for_selector` is caught by the `except` clause after the
`with` block unwinds, and the call returns `(none, none)`; otherwise both
fields are extracted, substituting a sentinel string when `query_selector`
finds no element. -/
def fetchWithTrace (env : FetchEnv) : (Option Str × Option Str) × List FEvent :=
  if env.gotoOk = false then
    ((none, none), [.launch, .goto, .playwrightStop])
  else if env.refAppears = false then
    ((none, none), [.launch, .goto, .waitRef, .playwrightStop])
  else if env.priceAppears = false then
    ((none, none), [.launch, .goto, .waitRef, .waitPrice, .playwrightStop])
  else
    ((some (refResult env), some (priceResult env)),
      [.launch, .goto, .waitRef, .waitPrice, .extract, .browserClose, .playwrightStop])

/-- Result pair of `fetch_product_details`: `(reference, price)`, where `none`
models Python `None`. -/
def fetch_product_details (env : FetchEnv) : Option Str × Option Str :=
  (fetchWithTrace env).1

/-- Event trace of one `fetch_product_details` call. -/
def fetchTrace (env : FetchEnv) : List FEvent := (fetchWithTrace env).2

/-- Events that tear down the headless rendering context. -/
def closesContext : FEvent → Bool
  | .browserClose => true
  | .playwrightStop => true
  | _ => false

/-- Heterogeneous Python list cell: the rows appended to `products` mix
strings and the integer quantity. -/
inductive PyVal where
  | str (s : Str)
  | int (n : Int)
deriving DecidableEq

/-- One input row of the CSV, with the four columns the code reads
(訂貨者名稱, 電話號碼, Submission Date, 商品訊息). -/
structure Row where
  customer : Str
  phone : Str
  date : Str
  message : Str
deriving DecidableEq

/-- One entry of `bookkeeping_data` (lines 88-95); the pandas DataFrame gives
the positions the column names Product Name, Quantity, Customer Name,
Phone Number, Date, Link. -/
structure BkRow where
  name : Str
  qty : Int
  customer : Str
  phone : Str
  date : Str
  link : Str
deriving DecidableEq

/-- One entry of `incorrect_entries` (lines 100-105): Customer Name,
Phone Number, Date, Invalid Entry (the raw item text). -/
structure RejRow where
  customer : Str
  phone : Str
  date : Str
  raw : Str
deriving DecidableEq

/-- The three accumulators of `process_csv`. -/
structure St where
  products : List (List PyVal)
  bookkeeping : List BkRow
  incorrect : List RejRow
deriving DecidableEq

/-- Componentwise concatenation of accumulator states. -/
def St.append (s t : St) : St :=
  ⟨s.products ++ t.products, s.bookkeeping ++ t.bookkeeping, s.incorrect ++ t.incorrect⟩

/-- Empty accumulator state. -/
def stEmpty : St := ⟨[], [], []⟩

/-- Label whose presence makes a text segment a candidate item (line 64). -/
def nameMarker : Str := "Product Name / 商品名稱".data

/-- Separator for the name extraction (line 66). -/
def nameLabel : Str := "Product Name / 商品名稱: ".data

/-- Second separator for the name extraction (line 66). -/
def linkSep : Str := ", Product Link".data

/-- Separator for the link extraction (line 67). -/
def linkLabel : Str := "Product Link / 商品網址: ".data

/-- Second separator for the link extraction (line 67). -/
def qtySep : Str := ", Product Quantity".data

/-- Separator for the quantity extraction (line 68). -/
def qtyLabel : Str := "Product Quantity / 所需數量: ".data

/-- Prefix demanded of a link by the validation on line 71. -/
def httpMark : Str := "http".data

/-- Domain marker routing an item to enrichment (lines 79 and 110). -/
def corvusMark : Str := "corvusbelli.com".data

/-- Substring used when filtering the bookkeeping ledger (line 124). -/
def corvusBkMark : Str := "corvusbelli".data

/-- Substring selecting the second vendor (lines 111 and 125). -/
def warMark : Str := "warhammer".data

/-- Line separator of the item blob (line 62). -/
def newlineS : Str := "\n".data

/-- Classified per-item failures; each models one exception raised (or
propagated) inside the per-item `try` block of `process_csv`. -/
inductive ItemErr where
  | indexError
  | badInt
  | linkNotHttp
  | invalidData
  | fetchFailed
deriving DecidableEq

/-- Line 66: `item.split("Product Name / 商品名稱: ")[1].split(", Product Link")[0].strip()`;
a missing separator makes the `[1]` raise `IndexError`. -/
def parseName (item : Str) : Except ItemErr Str :=
  match (pySplit nameLabel item)[1]? with
  | none => .error .indexError
  | some x => .ok (pyStrip ((pySplit linkSep x).headD []))

/-- Line 67: `item.split("Product Link / 商品網址: ")[1].split(", Product Quantity")[0].strip()`. -/
def parseLink (item : Str) : Except ItemErr Str :=
  match (pySplit linkLabel item)[1]? with
  | none => .error .indexError
  | some x => .ok (pyStrip ((pySplit qtySep x).headD []))

/-- Line 68: `int(item.split("Product Quantity / 所需數量: ")[1].strip())`. -/
def parseQty (item : Str) : Except ItemErr Int :=
  match (pySplit qtyLabel item)[1]? with
  | none => .error .indexError
  | some x =>
    match pyInt (pyStrip x) with
    | none => .error .badInt
    | some q => .ok q

/-- The standalone parser of lines 131-136 (`parse_product_item`): the same
three extractions, without the validation that follows in `process_csv`. -/
def parse_product_item (item : Str) : Except ItemErr (Str × Str × Int) :=
  match parseName item, parseLink item, parseQty item with
  | .ok n, .ok l, .ok q => .ok (n, l, q)
  | .error e, _, _ => .error e
  | _, .error e, _ => .error e
  | _, _, .error e => .error e

/-- The link-format validation of line 71: `link.startswith('http')`. -/
def linkFormatOk (link : Str) : Bool := leadsWith httpMark link

/-- Body of the per-item `try` block (lines 66-95), up to the point where the
appends happen: parse the three fields, validate, and either enrich (link
contains `corvusbelli.com`) or take the direct branch.  On success it yields
the `products` row together with the parsed name, link and quantity; an
`.error` models the exception caught by the per-item `except`.  `fetch` is the
oracle giving the `fetch_product_details` result for a link. -/
def processItemInner (fetch : Str → Option Str × Option Str) (item : Str) :
    Except ItemErr (List PyVal × Str × Str × Int) :=
  match parseName item with
  | .error e => .error e
  | .ok name =>
  match parseLink item with
  | .error e => .error e
  | .ok link =>
  match parseQty item with
  | .error e => .error e
  | .ok qty =>
  if linkFormatOk link = false then .error .linkNotHttp
  else if link = [] ∨ name = [] ∨ qty ≤ 0 then .error .invalidData
  else if containsSub corvusMark link then
    if pyFalsy (fetch link).1 || pyFalsy (fetch link).2 then .error .fetchFailed
    else .ok ([PyVal.str ((fetch link).1.getD []), PyVal.str name, PyVal.str link,
               PyVal.str ((fetch link).2.getD []), PyVal.int qty], name, link, qty)
  else .ok ([PyVal.str name, PyVal.int qty, PyVal.str link], name, link, qty)

/-- Row appended to `incorrect_entries` for a failed item (lines 100-105). -/
def rejRow (row : Row) (item : Str) : RejRow :=
  ⟨row.customer, format_phone_number row.phone, row.date, item⟩

/-- One iteration of the inner `for item in items` loop (lines 63-105):
segments without the name label are ignored; otherwise the item is processed
and, on success, appended to `products` and `bookkeeping_data`, while any
exception lands it in `incorrect_entries` with its raw text. -/
def handleItem (fetch : Str → Option Str × Option Str) (row : Row) (st : St) (item : Str) : St :=
  if containsSub nameMarker item then
    match processItemInner fetch item with
    | .ok (prod, name, link, qty) =>
      { st with
          products := st.products ++ [prod],
          bookkeeping := st.bookkeeping ++
            [⟨name, qty, row.customer, format_phone_number row.phone, row.date, link⟩] }
    | .error _ => { st with incorrect := st.incorrect ++ [rejRow row item] }
  else st

/-- One iteration of the outer `for index, row in data.iterrows()` loop
(lines 61-105): split the blob on newlines and process each segment. -/
def handleRow (fetch : Str → Option Str × Option Str) (st : St) (row : Row) : St :=
  (pySplit newlineS row.message).foldl (handleItem fetch row) st

/-- The accumulation phase of `process_csv` over all rows. -/
def processRecords (fetch : Str → Option Str × Option Str) (rows : List Row) : St :=
  rows.foldl (handleRow fetch) stEmpty

/-- Contribution of a single item to the accumulators (the state appended by
one `handleItem` step). -/
def itemDelta (fetch : Str → Option Str × Option Str) (row : Row) (item : Str) : St :=
  handleItem fetch row stEmpty item

/-- Contribution of a single input row to the accumulators. -/
def rowDelta (fetch : Str → Option Str × Option Str) (row : Row) : St :=
  handleRow fetch stEmpty row

/-- Supplier/ledger partition test on a `products` row: `'needle' in p[2]`
(lines 110-111).  Both row shapes store the link at index 2. -/
def strAt2Contains (needle : Str) (p : List PyVal) : Bool :=
  match p[2]? with
  | some (PyVal.str s) => containsSub needle s
  | _ => false

/-- Comparison on the bookkeeping `Date` column used by `sort_values`. -/
def dateLeB (a b : BkRow) : Bool := strLe a.date b.date

/-- The five tables written by `process_csv` (lines 110-127): the two supplier
tables, the two date-sorted bookkeeping ledgers, and the incorrect-entries
table (written only when non-empty). -/
structure Output where
  corvus_belli : List (List PyVal)
  games_workshop : List (List PyVal)
  infinity_bookkeeping : List BkRow
  gw_bookkeeping : List BkRow
  incorrect : List RejRow
deriving DecidableEq

/-- Model of `process_csv` (lines 55-129) on already-loaded rows: accumulate,
then partition `products` by the two substring tests on index 2, and filter
and date-sort the bookkeeping data into the two ledgers. -/
def process_csv (fetch : Str → Option Str × Option Str) (rows : List Row) : Output :=
  let st := processRecords fetch rows
  { corvus_belli := st.products.filter (strAt2Contains corvusMark)
    games_workshop := st.products.filter (strAt2Contains warMark)
    infinity_bookkeeping :=
      sortBy dateLeB (st.bookkeeping.filter (fun r => containsSub corvusBkMark r.link))
    gw_bookkeeping :=
      sortBy dateLeB (st.bookkeeping.filter (fun r => containsSub warMark r.link))
    incorrect := st.incorrect }

/-- Candidate Item Descriptions of a batch: the newline-separated segments of
each row's blob that contain the name label (line 64). -/
def candidateItems (rows : List Row) : List Str :=
  (rows.map (fun r => (pySplit newlineS r.message).filter (fun i => containsSub nameMarker i))).flatten

/-- Text between the name label and the link label, i.e. `", Product Link"`
glued to the tail `" / 商品網址: "`. -/
def linkFull : Str := ", Product Link / 商品網址: ".data

/-- Full quantity separator. -/
def qtyFull : Str := ", Product Quantity / 所需數量: ".data

/-- Comma-space glue of the rendered format. -/
def commaSpace : Str := ", ".data

/-- Rendering of a (name, link, quantity) triple in the fixed label format of
an Item Description. -/
def renderItem (n l : Str) (q : Int) : Str :=
  nameLabel ++ n ++ linkFull ++ l ++ qtyFull ++ intRepr q

/-- Fetch oracle for runs in which no fetch succeeds (also the value a fetch
returns after any caught exception). -/
def trivFetch : Str → Option Str × Option Str := fun _ => (none, none)

/-- Environment of a fetch whose page renders (both waits succeed) but whose
SKU element is gone at extraction time, with a price of `45,00 €`. -/
def envRefMissing : FetchEnv := ⟨true, true, true, none, some "45,00 €".data⟩

/-- Oracle returning the reference sentinel and a real price for every link. -/
def sentinelFetch : Str → Option Str × Option Str := fun _ => fetch_product_details envRefMissing

/-- Environment of a fetch whose reference marker never appears within the
5000 ms wait (the wait raises `TimeoutError`). -/
def envTimeout : FetchEnv := ⟨true, false, true, some "X".data, some "9".data⟩

/-- A well-formed corvusbelli item description. -/
def corvusItemText : Str :=
  "Product Name / 商品名稱: Morat Aggression Pack, Product Link / 商品網址: https://www.corvusbelli.com/en/morat, Product Quantity / 所需數量: 2".data

/-- One-row batch whose single item links to the reference-priced vendor. -/
def corvusRows : List Row :=
  [⟨"Bob".data, "0987654321".data, "2024-02-02".data, corvusItemText⟩]

/-- A well-formed item description whose link matches neither vendor marker. -/
def neutralItemText : Str :=
  "Product Name / 商品名稱: Widget, Product Link / 商品網址: http://example.com/a, Product Quantity / 所需數量: 1".data

/-- One-row batch whose single valid item matches neither vendor substring. -/
def neutralRows : List Row :=
  [⟨"Alice".data, "0912345678".data, "2024-01-01".data, neutralItemText⟩]

/-- Input row used by concrete witnesses that exercise `handleItem` directly. -/
def rowW : Row := ⟨"Carol".data, "0955555555".data, "2024-03-03".data, []⟩

/-- Item description with a negative quantity. -/
def badQtyItem : Str :=
  "Product Name / 商品名稱: Gizmo, Product Link / 商品網址: http://warhammer.example/x, Product Quantity / 所需數量: -1".data

/-- Candidate item text that cannot be parsed (the name label never occurs
with its trailing colon-space). -/
def brokenItem : Str := "Product Name / 商品名稱 oops".data

/-- A link passing the `startswith('http')` validation without being a URL. -/
def garbageLink : Str := "httpgarbage".data

/-- Item description with the non-URL link `httpgarbage`. -/
def garbageItem : Str :=
  "Product Name / 商品名稱: Gadget, Product Link / 商品網址: httpgarbage, Product Quantity / 所需數量: 3".data

/-- Bookkeeping row produced by the neutral-link batch `neutralRows`. -/
def neutralBkRow : BkRow :=
  ⟨"Widget".data, 1, "Alice".data, format_phone_number "0912345678".data,
   "2024-01-01".data, "http://example.com/a".data⟩

/-- Supplier row produced by the sentinel-fetch corvusbelli batch. -/
def corvusProdRow : List PyVal :=
  [PyVal.str refSentinel, PyVal.str "Morat Aggression Pack".data,
   PyVal.str "https://www.corvusbelli.com/en/morat".data,
   PyVal.str "45,00 €".data, PyVal.int 2]

/-- A prefix test succeeds exactly when the string extends the pattern. -/
theorem leadsWith_iff (p s : Str) : leadsWith p s = true ↔ ∃ t, s = p ++ t := by
  induction p generalizing s with
  | nil => simp [leadsWith]
  | cons a as ih =>
    cases s with
    | nil => simp [leadsWith]
    | cons b bs =>
      simp only [leadsWith, Bool.and_eq_true, beq_iff_eq, ih, List.cons_append]
      constructor
      · rintro ⟨rfl, t, rfl⟩; exact ⟨t, rfl⟩
      · rintro ⟨t, ht⟩
        injection ht with h1 h2
        exact ⟨h1.symm, t, h2⟩

/-- A pattern is a prefix of itself followed by anything. -/
theorem leadsWith_self_append (p t : Str) : leadsWith p (p ++ t) = true :=
  (leadsWith_iff p (p ++ t)).mpr ⟨t, rfl⟩

/-- A prefix occurrence is in particular a substring occurrence. -/
theorem containsSub_of_leadsWith {sep s : Str} (h : leadsWith sep s = true) :
    containsSub sep s = true := by
  cases s with
  | nil =>
    cases sep with
    | nil => rfl
    | cons a as => simp [leadsWith] at h
  | cons c rest => simp [containsSub, h]

/-- Unfolding of a failed containment test on a cons cell. -/
theorem containsSub_cons_false {sep : Str} {c : Char} {rest : Str}
    (h : containsSub sep (c :: rest) = false) :
    leadsWith sep (c :: rest) = false ∧ containsSub sep rest = false := by
  simpa [containsSub, Bool.or_eq_false_iff] using h

/-- Characters of a contained pattern occur in the string. -/
theorem mem_of_containsSub {sep s : Str} {c : Char} (h : containsSub sep s = true)
    (hc : c ∈ sep) : c ∈ s := by
  induction s with
  | nil =>
    cases sep with
    | nil => cases hc
    | cons a as => simp [containsSub] at h
  | cons b bs ih =>
    rw [containsSub, Bool.or_eq_true] at h
    rcases h with h | h
    · obtain ⟨t, ht⟩ := (leadsWith_iff _ _).mp h
      rw [ht]
      exact List.mem_append.mpr (Or.inl hc)
    · exact List.mem_cons_of_mem _ (ih h)

/-- Splitting the empty string gives a single empty field at any fuel. -/
theorem pySplitF_nil (f : Nat) (sep : Str) : pySplitF f sep [] = [[]] := by
  cases f <;> rfl

/-- The fuelled split worker is fuel-independent above the string length. -/
theorem pySplitF_congr (sep : Str) (hsep : sep ≠ []) :
    ∀ (f : Nat) (s : Str) (g : Nat), s.length ≤ f → s.length ≤ g →
      pySplitF f sep s = pySplitF g sep s := by
  have hsl : 1 ≤ sep.length := by
    cases sep with
    | nil => exact absurd rfl hsep
    | cons a as => simp
  intro f
  induction f with
  | zero =>
    intro s g hf hg
    have hs : s = [] := List.eq_nil_of_length_eq_zero (Nat.le_zero.mp hf)
    subst hs
    rw [pySplitF_nil, pySplitF_nil]
  | succ f ih =>
    intro s g hf hg
    cases s with
    | nil => rw [pySplitF_nil, pySplitF_nil]
    | cons c rest =>
      cases g with
      | zero => simp at hg
      | succ g =>
        have hr : rest.length ≤ f := by simp [List.length_cons] at hf; omega
        have hr2 : rest.length ≤ g := by simp [List.length_cons] at hg; omega
        have hd : (List.drop sep.length (c :: rest)).length ≤ f := by
          rw [List.length_drop]
          simp [List.length_cons]
          omega
        have hd2 : (List.drop sep.length (c :: rest)).length ≤ g := by
          rw [List.length_drop]
          simp [List.length_cons]
          omega
        simp only [pySplitF]
        by_cases hpre : leadsWith sep (c :: rest) = true
        · rw [if_pos hpre, if_pos hpre, ih _ _ hd hd2]
        · rw [if_neg hpre, if_neg hpre, ih _ _ hr hr2]

/-- Unfolding equation of `pySplit` on a cons cell. -/
theorem pySplit_cons (sep : Str) (hsep : sep ≠ []) (c : Char) (rest : Str) :
    pySplit sep (c :: rest) =
      if leadsWith sep (c :: rest) then [] :: pySplit sep (List.drop sep.length (c :: rest))
      else
        match pySplit sep rest with
        | [] => [[c]]
        | t :: ts => (c :: t) :: ts := by
  have hemp : ¬ (sep.isEmpty = true) := by
    cases sep with
    | nil => exact absurd rfl hsep
    | cons a as => simp
  have hsl : 1 ≤ sep.length := by
    cases sep with
    | nil => exact absurd rfl hsep
    | cons a as => simp
  rw [pySplit, if_neg hemp]
  have hrw : pySplitF rest.length sep rest = pySplit sep rest := by
    rw [pySplit, if_neg hemp]
  simp only [List.length_cons, pySplitF]
  by_cases hpre : leadsWith sep (c :: rest) = true
  · rw [if_pos hpre, if_pos hpre]
    congr 1
    rw [pySplit, if_neg hemp]
    apply pySplitF_congr sep hsep
    · rw [List.length_drop]
      simp [List.length_cons]
      omega
    · exact Nat.le_refl _
  · rw [if_neg hpre, if_neg hpre, hrw]

/-- A string containing no occurrence of the separator splits into itself. -/
theorem pySplit_of_not_sub (sep : Str) (hsep : sep ≠ []) :
    ∀ s : Str, containsSub sep s = false → pySplit sep s = [s] := by
  intro s
  induction s with
  | nil =>
    intro _
    rw [pySplit]
    split
    · rfl
    · exact pySplitF_nil _ _
  | cons c rest ih =>
    intro h
    obtain ⟨h1, h2⟩ := containsSub_cons_false h
    rw [pySplit_cons sep hsep, if_neg (by simp [h1]), ih h2]

/-- A pattern occurrence starting strictly inside `a` would lie inside
`dropLast (a ++ sep)`; when no such occurrence exists, the pattern is not a
prefix of `a ++ sep ++ b` for non-empty `a`. -/
theorem leadsWith_straddle (sep a b : Str) (hsep : sep ≠ []) (ha : a ≠ [])
    (h : containsSub sep (List.dropLast (a ++ sep)) = false) :
    leadsWith sep (a ++ (sep ++ b)) = false := by
  have key : leadsWith sep (a ++ (sep ++ b)) = true →
      containsSub sep (List.dropLast (a ++ sep)) = true := by
    intro hlead
    obtain ⟨t, ht⟩ := (leadsWith_iff _ _).mp hlead
    have ha1 : 1 ≤ a.length := by
      cases a with
      | nil => exact absurd rfl ha
      | cons u us => simp
    have hs1 : 1 ≤ sep.length := by
      cases sep with
      | nil => exact absurd rfl hsep
      | cons u us => simp
    have h1 : (a ++ (sep ++ b)).take sep.length = sep := by
      rw [ht, List.take_left]
    have h2 : List.dropLast (a ++ sep) = (a ++ sep).take (a.length + sep.length - 1) := by
      rw [List.dropLast_eq_take, List.length_append]
    have h3 : (List.dropLast (a ++ sep)).take sep.length = (a ++ sep).take sep.length := by
      rw [h2, List.take_take]
      congr 1
      omega
    have e1 : (a ++ (sep ++ b)).take sep.length =
        a.take sep.length ++ (sep ++ b).take (sep.length - a.length) :=
      List.take_append_eq_append_take
    have e2 : (sep ++ b).take (sep.length - a.length) =
        sep.take (sep.length - a.length) ++ b.take (sep.length - a.length - sep.length) :=
      List.take_append_eq_append_take
    have e3 : sep.length - a.length - sep.length = 0 := by omega
    have e4 : (a ++ sep).take sep.length =
        a.take sep.length ++ sep.take (sep.length - a.length) :=
      List.take_append_eq_append_take
    have h4 : (a ++ sep).take sep.length = (a ++ (sep ++ b)).take sep.length := by
      rw [e4, e1, e2, e3, List.take_zero, List.append_nil]
    have h5 : (List.dropLast (a ++ sep)).take sep.length = sep := by
      rw [h3, h4, h1]
    have h6 : leadsWith sep (List.dropLast (a ++ sep)) = true := by
      rw [leadsWith_iff]
      have hsplit := List.take_append_drop sep.length (List.dropLast (a ++ sep))
      rw [h5] at hsplit
      exact ⟨(List.dropLast (a ++ sep)).drop sep.length, hsplit.symm⟩
    exact containsSub_of_leadsWith h6
  cases hx : leadsWith sep (a ++ (sep ++ b)) with
  | false => rfl
  | true => rw [key hx] at h; cases h

/-- Key splitting identity: when the separator first occurs exactly after `a`,
splitting cuts off `a` and continues in `b`. -/
theorem pySplit_glue (sep a b : Str) (hsep : sep ≠ [])
    (h : containsSub sep (List.dropLast (a ++ sep)) = false) :
    pySplit sep (a ++ (sep ++ b)) = a :: pySplit sep b := by
  induction a with
  | nil =>
    simp only [List.nil_append]
    cases sep with
    | nil => exact absurd rfl hsep
    | cons s0 st =>
      rw [List.cons_append, pySplit_cons (s0 :: st) hsep s0 (st ++ b),
        if_pos (show leadsWith (s0 :: st) (s0 :: (st ++ b)) = true from
          leadsWith_self_append (s0 :: st) b),
        show List.drop (s0 :: st).length (s0 :: (st ++ b)) = b from List.drop_left (s0 :: st) b]
  | cons x a' ih =>
    have hx : leadsWith sep ((x :: a') ++ (sep ++ b)) = false :=
      leadsWith_straddle sep (x :: a') b hsep (by simp) h
    have hne : a' ++ sep ≠ [] := by
      intro hcon
      rw [List.append_eq_nil] at hcon
      exact hsep hcon.2
    have h' : containsSub sep (List.dropLast (a' ++ sep)) = false := by
      rw [List.cons_append, List.dropLast_cons_of_ne_nil hne] at h
      exact (containsSub_cons_false h).2
    rw [List.cons_append] at hx ⊢
    rw [pySplit_cons sep hsep x (a' ++ (sep ++ b)), if_neg (by simp [hx]), ih h']

/-- dropWhile is the identity when no element satisfies the predicate. -/
theorem dropWhile_eq_self_of (p : Char → Bool) (s : Str) (h : ∀ c ∈ s, p c = false) :
    s.dropWhile p = s := by
  cases s with
  | nil => rfl
  | cons c rest =>
    rw [List.dropWhile_cons, if_neg (by simp [h c (List.mem_cons_self c rest)])]

/-- Stripping is the identity on whitespace-free strings. -/
theorem pyStrip_of_no_ws (s : Str) (h : ∀ c ∈ s, isWs c = false) : pyStrip s = s := by
  rw [pyStrip, dropWhile_eq_self_of _ _ h,
    dropWhile_eq_self_of _ _ (fun c hc => h c (List.mem_reverse.mp hc))]
  exact List.reverse_reverse s

/-- Digit characters are not whitespace. -/
theorem isDig_not_ws {c : Char} (h : isDig c = true) : isWs c = false := by
  simp only [isDig, Bool.and_eq_true, decide_eq_true_eq] at h
  simp only [isWs, Bool.or_eq_false_iff, decide_eq_false_iff_not]
  omega

/-- Digit characters are not sign characters. -/
theorem isDig_ne_sign {c : Char} (h : isDig c = true) : c ≠ '-' ∧ c ≠ '+' := by
  constructor <;> intro hc <;> subst hc <;> exact absurd h (by decide)

/-- Characters rendered for digits are digits and decode to their value. -/
theorem digitChar_spec (m : Nat) (hm : m < 10) :
    isDig (Char.ofNat (48 + m)) = true ∧ (Char.ofNat (48 + m)).toNat - 48 = m := by
  interval_cases m <;> exact ⟨by decide, by decide⟩

/-- With sufficient fuel the decimal rendering is a nonempty digit string
whose base-10 value is the rendered number. -/
theorem natReprF_spec : ∀ (f n : Nat), n < 10 ^ f →
    natReprF (f + 1) n ≠ [] ∧ (∀ c ∈ natReprF (f + 1) n, isDig c = true) ∧
      (natReprF (f + 1) n).foldl (fun a c => a * 10 + (c.toNat - 48)) 0 = n := by
  intro f
  induction f with
  | zero =>
    intro n hn
    interval_cases n
    exact ⟨by decide, by decide, by decide⟩
  | succ f ih =>
    intro n hn
    by_cases h10 : n < 10
    · rw [show natReprF (f + 1 + 1) n = [Char.ofNat (48 + n)] from by
        simp only [natReprF, if_pos h10]]
      refine ⟨by simp, ?_, ?_⟩
      · intro c hc
        rw [List.mem_singleton] at hc
        subst hc
        exact (digitChar_spec n h10).1
      · simp [List.foldl, (digitChar_spec n h10).2]
    · have hd : n / 10 < 10 ^ f := by
        rw [Nat.div_lt_iff_lt_mul (by norm_num)]
        calc n < 10 ^ (f + 1) := hn
          _ = 10 ^ f * 10 := by rw [pow_succ]
      obtain ⟨ihne, ihdig, ihval⟩ := ih (n / 10) hd
      have hm : n % 10 < 10 := Nat.mod_lt _ (by norm_num)
      rw [show natReprF (f + 1 + 1) n =
          natReprF (f + 1) (n / 10) ++ [Char.ofNat (48 + n % 10)] from by
        simp only [natReprF, if_neg h10]]
      refine ⟨by simp, ?_, ?_⟩
      · intro c hc
        rcases List.mem_append.mp hc with hc | hc
        · exact ihdig c hc
        · rw [List.mem_singleton] at hc
          subst hc
          exact (digitChar_spec _ hm).1
      · rw [List.foldl_append, ihval]
        simp only [List.foldl, (digitChar_spec _ hm).2]
        omega

/-- Specification of the decimal rendering of a natural number. -/
theorem natRepr_spec (n : Nat) :
    natRepr n ≠ [] ∧ (∀ c ∈ natRepr n, isDig c = true) ∧
      (natRepr n).foldl (fun a c => a * 10 + (c.toNat - 48)) 0 = n :=
  natReprF_spec n n (Nat.lt_pow_self (by norm_num) n)

/-- On all-digit strings the digit-run parser folds up the base-10 value. -/
theorem pyDigitsGo_digits : ∀ (s : Str), (∀ c ∈ s, isDig c = true) → ∀ acc : Nat,
    pyDigitsGo acc s = some (s.foldl (fun a c => a * 10 + (c.toNat - 48)) acc) := by
  intro s
  induction s with
  | nil => intro _ _; rfl
  | cons c rest ih =>
    intro h acc
    have hc := h c (List.mem_cons_self c rest)
    have hstep : pyDigitsGo acc (c :: rest) = pyDigitsGo (acc * 10 + (c.toNat - 48)) rest := by
      rw [pyDigitsGo.eq_def]
      simp only [hc, if_true]
    rw [hstep, ih (fun d hd => h d (List.mem_cons_of_mem c hd))]
    rfl

/-- On nonempty all-digit strings `pyIntDigits` returns the base-10 value. -/
theorem pyIntDigits_digits (s : Str) (hne : s ≠ []) (h : ∀ c ∈ s, isDig c = true) :
    pyIntDigits s = some (s.foldl (fun a c => a * 10 + (c.toNat - 48)) 0) := by
  cases s with
  | nil => exact absurd rfl hne
  | cons c rest =>
    rw [pyIntDigits, if_pos (h c (List.mem_cons_self c rest)),
      pyDigitsGo_digits rest (fun d hd => h d (List.mem_cons_of_mem c hd)) (c.toNat - 48)]
    simp [List.foldl_cons]

/-- Parsing the decimal rendering of a positive integer gives it back. -/
theorem pyInt_intRepr (q : Int) (hq : 0 < q) : pyInt (intRepr q) = some q := by
  have hql : ¬ q < 0 := by omega
  rw [intRepr, if_neg hql]
  obtain ⟨hne, hdig, hval⟩ := natRepr_spec q.toNat
  have hstrip : pyStrip (natRepr q.toNat) = natRepr q.toNat :=
    pyStrip_of_no_ws _ (fun c hc => isDig_not_ws (hdig c hc))
  cases hrep : natRepr q.toNat with
  | nil => exact absurd hrep hne
  | cons c rest =>
    have hcd : isDig c = true := hdig c (by rw [hrep]; exact List.mem_cons_self c rest)
    obtain ⟨hminus, hplus⟩ := isDig_ne_sign hcd
    have hstrip2 : pyStrip (c :: rest) = c :: rest := by rw [← hrep]; exact hstrip
    have hdig2 : ∀ x ∈ c :: rest, isDig x = true := by rw [← hrep]; exact hdig
    have hval2 : (c :: rest).foldl (fun a x => a * 10 + (x.toNat - 48)) 0 = q.toNat := by
      rw [← hrep]; exact hval
    rw [pyInt, hstrip2]
    show (if c = '-' then (pyIntDigits rest).map (fun n => -(n : Int))
        else if c = '+' then (pyIntDigits rest).map (fun n => (n : Int))
        else (pyIntDigits (c :: rest)).map (fun n => (n : Int))) = some q
    rw [if_neg hminus, if_neg hplus]
    rw [pyIntDigits_digits (c :: rest) (by simp) hdig2, hval2]
    show some ((q.toNat : Int)) = some q
    rw [Int.toNat_of_nonneg hq.le]

/-- Totality of the lexicographic string order. -/
theorem strLe_total : ∀ s t : Str, strLe s t = true ∨ strLe t s = true := by
  intro s
  induction s with
  | nil => intro t; exact Or.inl rfl
  | cons a as ih =>
    intro t
    cases t with
    | nil => exact Or.inr rfl
    | cons b bs =>
      rcases lt_trichotomy a b with h | h | h
      · left; rw [strLe, if_pos h]
      · subst h
        rcases ih bs with h2 | h2
        · left; rw [strLe, if_neg (lt_irrefl a), if_neg (lt_irrefl a)]; exact h2
        · right; rw [strLe, if_neg (lt_irrefl a), if_neg (lt_irrefl a)]; exact h2
      · right; rw [strLe, if_pos h]

/-- Membership in an ordered insertion. -/
theorem mem_insertSorted (le : α → α → Bool) (x y : α) :
    ∀ l : List α, y ∈ insertSorted le x l ↔ y = x ∨ y ∈ l := by
  intro l
  induction l with
  | nil => simp [insertSorted]
  | cons z zs ih =>
    rw [insertSorted]
    by_cases h : le x z = true
    · rw [if_pos h]
      simp [List.mem_cons]
    · rw [if_neg h]
      simp [List.mem_cons, ih]
      tauto

/-- Ordered insertion preserves consecutive sortedness, given totality. -/
theorem chain'_insertSorted (le : α → α → Bool)
    (htot : ∀ a b, le a b = true ∨ le b a = true) (x : α) :
    ∀ l : List α, List.Chain' (fun a b => le a b = true) l →
      List.Chain' (fun a b => le a b = true) (insertSorted le x l) := by
  intro l
  induction l with
  | nil => intro _; simp [insertSorted]
  | cons y ys ih =>
    intro hch
    obtain ⟨hhead, hch'⟩ := List.chain'_cons'.mp hch
    rw [insertSorted]
    by_cases hxy : le x y = true
    · rw [if_pos hxy]
      exact hch.cons hxy
    · rw [if_neg hxy]
      have hyx : le y x = true := (htot x y).resolve_left hxy
      rw [List.chain'_cons']
      refine ⟨?_, ih hch'⟩
      intro z hz
      cases ys with
      | nil =>
        simp [insertSorted] at hz
        subst hz
        exact hyx
      | cons w ws =>
        rw [insertSorted] at hz
        by_cases hxw : le x w = true
        · rw [if_pos hxw] at hz
          simp [List.head?_cons] at hz
          subst hz
          exact hyx
        · rw [if_neg hxw] at hz
          simp [List.head?_cons] at hz
          subst hz
          exact hhead w (by simp [List.head?_cons])

/-- The insertion sort is consecutively sorted, given totality. -/
theorem chain'_sortBy (le : α → α → Bool)
    (htot : ∀ a b, le a b = true ∨ le b a = true) :
    ∀ l : List α, List.Chain' (fun a b => le a b = true) (sortBy le l) := by
  intro l
  induction l with
  | nil => simp [sortBy]
  | cons x xs ih =>
    have hstep : sortBy le (x :: xs) = insertSorted le x (sortBy le xs) := rfl
    rw [hstep]
    exact chain'_insertSorted le htot x _ ih

/-- Sorting preserves membership. -/
theorem mem_sortBy (le : α → α → Bool) (y : α) :
    ∀ l : List α, y ∈ sortBy le l ↔ y ∈ l := by
  intro l
  induction l with
  | nil => exact Iff.rfl
  | cons x xs ih =>
    have hstep : sortBy le (x :: xs) = insertSorted le x (sortBy le xs) := rfl
    rw [hstep, mem_insertSorted, ih, List.mem_cons]

/-- State concatenation is associative. -/
theorem St.append_assoc (a b c : St) :
    St.append (St.append a b) c = St.append a (St.append b c) := by
  cases a; cases b; cases c
  simp [St.append, List.append_assoc]

/-- The empty state is a left identity. -/
theorem St.empty_append (a : St) : St.append stEmpty a = a := by
  cases a
  simp [St.append, stEmpty]

/-- The empty state is a right identity. -/
theorem St.append_empty (a : St) : St.append a stEmpty = a := by
  cases a
  simp [St.append, stEmpty]

/-- One `handleItem` step only appends: its effect is the state appended with
the item's own contribution, whatever the starting state. -/
theorem handleItem_delta (fetch : Str → Option Str × Option Str) (row : Row) (st : St)
    (item : Str) : handleItem fetch row st item = St.append st (itemDelta fetch row item) := by
  obtain ⟨ps, bs, is⟩ := st
  rw [itemDelta, handleItem, handleItem]
  by_cases hm : containsSub nameMarker item = true
  · rw [if_pos hm, if_pos hm]
    cases hp : processItemInner fetch item with
    | ok r =>
      obtain ⟨prod, name, link, qty⟩ := r
      simp [St.append, stEmpty]
    | error e => simp [St.append, stEmpty]
  · rw [if_neg hm, if_neg hm]
    simp [St.append, stEmpty]

/-- Folding the per-item step over a list of items only appends. -/
theorem foldl_handleItem_delta (fetch : Str → Option Str × Option Str) (row : Row) :
    ∀ (items : List Str) (st : St),
      items.foldl (handleItem fetch row) st =
        St.append st (items.foldl (handleItem fetch row) stEmpty) := by
  intro items
  induction items with
  | nil => intro st; exact (St.append_empty st).symm
  | cons i is ih =>
    intro st
    calc (i :: is).foldl (handleItem fetch row) st
        = is.foldl (handleItem fetch row) (handleItem fetch row st i) := rfl
      _ = St.append (handleItem fetch row st i) (is.foldl (handleItem fetch row) stEmpty) :=
          ih _
      _ = St.append (St.append st (itemDelta fetch row i))
            (is.foldl (handleItem fetch row) stEmpty) := by rw [handleItem_delta]
      _ = St.append st (St.append (itemDelta fetch row i)
            (is.foldl (handleItem fetch row) stEmpty)) := St.append_assoc _ _ _
      _ = St.append st (is.foldl (handleItem fetch row) (handleItem fetch row stEmpty i)) := by
          rw [itemDelta, ← ih (handleItem fetch row stEmpty i)]
      _ = St.append st ((i :: is).foldl (handleItem fetch row) stEmpty) := rfl

/-- One `handleRow` step only appends its row's contribution. -/
theorem handleRow_delta (fetch : Str → Option Str × Option Str) (st : St) (row : Row) :
    handleRow fetch st row = St.append st (rowDelta fetch row) :=
  foldl_handleItem_delta fetch row (pySplit newlineS row.message) st

/-- Folding the per-row step over a list of rows only appends. -/
theorem foldl_handleRow_delta (fetch : Str → Option Str × Option Str) :
    ∀ (rows : List Row) (st : St),
      rows.foldl (handleRow fetch) st =
        St.append st (rows.foldl (handleRow fetch) stEmpty) := by
  intro rows
  induction rows with
  | nil => intro st; exact (St.append_empty st).symm
  | cons r rs ih =>
    intro st
    calc (r :: rs).foldl (handleRow fetch) st
        = rs.foldl (handleRow fetch) (handleRow fetch st r) := rfl
      _ = St.append (handleRow fetch st r) (rs.foldl (handleRow fetch) stEmpty) := ih _
      _ = St.append (St.append st (rowDelta fetch r)) (rs.foldl (handleRow fetch) stEmpty) := by
          rw [handleRow_delta]
      _ = St.append st (St.append (rowDelta fetch r) (rs.foldl (handleRow fetch) stEmpty)) :=
          St.append_assoc _ _ _
      _ = St.append st (rs.foldl (handleRow fetch) (handleRow fetch stEmpty r)) := by
          rw [rowDelta, ← ih (handleRow fetch stEmpty r)]
      _ = St.append st ((r :: rs).foldl (handleRow fetch) stEmpty) := rfl

/-- Batch locality: processing a concatenation of record lists concatenates
the accumulated states. -/
theorem processRecords_append (fetch : Str → Option Str × Option Str) (xs ys : List Row) :
    processRecords fetch (xs ++ ys) =
      St.append (processRecords fetch xs) (processRecords fetch ys) := by
  rw [processRecords, List.foldl_append]
  exact foldl_handleRow_delta fetch ys (processRecords fetch xs)

/-- Head decomposition of the accumulation over records. -/
theorem processRecords_cons (fetch : Str → Option Str × Option Str) (r : Row) (rs : List Row) :
    processRecords fetch (r :: rs) =
      St.append (rowDelta fetch r) (processRecords fetch rs) := by
  rw [processRecords, List.foldl_cons, foldl_handleRow_delta]
  congr 1

/-- Head decomposition of the accumulation over the items of one row. -/
theorem itemsFold_cons (fetch : Str → Option Str × Option Str) (row : Row) (i : Str)
    (is : List Str) :
    (i :: is).foldl (handleItem fetch row) stEmpty =
      St.append (itemDelta fetch row i) (is.foldl (handleItem fetch row) stEmpty) := by
  rw [List.foldl_cons, foldl_handleItem_delta]
  congr 1

/-- Terminal dichotomy of one item: a non-candidate contributes nothing; a
candidate contributes exactly one rejected row, or exactly one products row
together with exactly one bookkeeping row. -/
theorem itemDelta_cases (fetch : Str → Option Str × Option Str) (row : Row) (item : Str) :
    (containsSub nameMarker item = false ∧ itemDelta fetch row item = stEmpty)
    ∨ (containsSub nameMarker item = true ∧
        ((∃ e, processItemInner fetch item = .error e ∧
            itemDelta fetch row item = ⟨[], [], [rejRow row item]⟩)
         ∨ (∃ prod name link qty,
              processItemInner fetch item = .ok (prod, name, link, qty) ∧
              itemDelta fetch row item =
                ⟨[prod],
                 [⟨name, qty, row.customer, format_phone_number row.phone, row.date, link⟩],
                 []⟩))) := by
  by_cases hm : containsSub nameMarker item = true
  · right
    refine ⟨hm, ?_⟩
    cases hp : processItemInner fetch item with
    | error e =>
      left
      exact ⟨e, rfl, by simp [itemDelta, handleItem, hm, hp, stEmpty]⟩
    | ok r =>
      obtain ⟨prod, name, link, qty⟩ := r
      right
      exact ⟨prod, name, link, qty, rfl, by simp [itemDelta, handleItem, hm, hp, stEmpty]⟩
  · left
    refine ⟨by simpa using hm, ?_⟩
    simp [itemDelta, handleItem, hm]

/-- An accepted item's `products` row has one of the two appended shapes:
the 5-field enriched row or the 3-field direct row; both store the parsed
link at index 2. -/
theorem processItemInner_shape (fetch : Str → Option Str × Option Str) (item : Str)
    (prod : List PyVal) (name link : Str) (qty : Int)
    (h : processItemInner fetch item = .ok (prod, name, link, qty)) :
    prod[2]? = some (PyVal.str link) ∧ (prod.length = 5 ∨ prod.length = 3) := by
  unfold processItemInner at h
  repeat' split at h
  any_goals exact Except.noConfusion h
  all_goals
    simp only [Except.ok.injEq, Prod.mk.injEq] at h
    obtain ⟨h1, h2, h3, h4⟩ := h
    subst h1
    subst h3
    refine ⟨rfl, ?_⟩
    first
      | exact Or.inl rfl
      | exact Or.inr rfl

/-- Membership in the `products` component of an appended state. -/
theorem mem_products_append (a b : St) (p : List PyVal) :
    p ∈ (St.append a b).products ↔ p ∈ a.products ∨ p ∈ b.products := by
  cases a; cases b
  simp [St.append]

/-- Membership in the `bookkeeping` component of an appended state. -/
theorem mem_bookkeeping_append (a b : St) (r : BkRow) :
    r ∈ (St.append a b).bookkeeping ↔ r ∈ a.bookkeeping ∨ r ∈ b.bookkeeping := by
  cases a; cases b
  simp [St.append]

/-- A `products` row contributed by one item comes from a successful
`processItemInner` run on that item. -/
theorem itemDelta_products (fetch : Str → Option Str × Option Str) (row : Row) (item : Str)
    (p : List PyVal) (hp : p ∈ (itemDelta fetch row item).products) :
    ∃ prod name link qty,
      processItemInner fetch item = .ok (prod, name, link, qty) ∧ p = prod := by
  rcases itemDelta_cases fetch row item with ⟨_, hd⟩ | ⟨_, hcase⟩
  · rw [hd] at hp
    simp [stEmpty] at hp
  · rcases hcase with ⟨e, _, hd⟩ | ⟨prod, name, link, qty, hok, hd⟩
    · rw [hd] at hp
      simp at hp
    · rw [hd] at hp
      simp at hp
      exact ⟨prod, name, link, qty, hok, hp⟩

/-- A `products` row accumulated over a row's items comes from a successful
`processItemInner` run on one of them. -/
theorem itemsFold_products (fetch : Str → Option Str × Option Str) (row : Row) :
    ∀ (items : List Str) (p : List PyVal),
      p ∈ (items.foldl (handleItem fetch row) stEmpty).products →
      ∃ item prod name link qty,
        processItemInner fetch item = .ok (prod, name, link, qty) ∧ p = prod := by
  intro items
  induction items with
  | nil =>
    intro p hp
    simp [stEmpty] at hp
  | cons i is ih =>
    intro p hp
    rw [itemsFold_cons] at hp
    rcases (mem_products_append _ _ _).mp hp with hp | hp
    · obtain ⟨prod, name, link, qty, hok, hpe⟩ := itemDelta_products fetch row i p hp
      exact ⟨i, prod, name, link, qty, hok, hpe⟩
    · exact ih p hp

/-- Invariant of the `products` accumulator: every accumulated row stores a
string - the item's link - at index 2 and has one of the two appended shapes. -/
theorem products_shape (fetch : Str → Option Str × Option Str) :
    ∀ (rows : List Row) (p : List PyVal),
      p ∈ (processRecords fetch rows).products →
      ∃ link : Str, p[2]? = some (PyVal.str link) ∧ (p.length = 5 ∨ p.length = 3) := by
  intro rows
  induction rows with
  | nil =>
    intro p hp
    simp [processRecords, stEmpty] at hp
  | cons r rs ih =>
    intro p hp
    rw [processRecords_cons] at hp
    rcases (mem_products_append _ _ _).mp hp with hp | hp
    · obtain ⟨item, prod, name, link, qty, hok, hpe⟩ :=
        itemsFold_products fetch r (pySplit newlineS r.message) p hp
      subst hpe
      obtain ⟨h2, hlen⟩ := processItemInner_shape fetch item p name link qty hok
      exact ⟨link, h2, hlen⟩
    · exact ih p hp

/-- Head decomposition of the candidate-item list. -/
theorem candidateItems_cons (r : Row) (rs : List Row) :
    candidateItems (r :: rs) =
      (pySplit newlineS r.message).filter (fun i => containsSub nameMarker i)
        ++ candidateItems rs := rfl

/-- Counting one item's contribution: a candidate adds exactly one row to the
bookkeeping-or-rejected total, a non-candidate adds none, and products and
bookkeeping always grow in lockstep. -/
theorem itemDelta_counts (fetch : Str → Option Str × Option Str) (row : Row) (item : Str) :
    ((itemDelta fetch row item).bookkeeping.length + (itemDelta fetch row item).incorrect.length
       = if containsSub nameMarker item = true then 1 else 0)
    ∧ (itemDelta fetch row item).products.length
       = (itemDelta fetch row item).bookkeeping.length := by
  rcases itemDelta_cases fetch row item with ⟨hm, hd⟩ | ⟨hm, hcase⟩
  · rw [hd, if_neg (by simp [hm])]
    simp [stEmpty]
  · rcases hcase with ⟨e, _, hd⟩ | ⟨prod, name, link, qty, _, hd⟩ <;>
      rw [hd, if_pos hm] <;> simp

/-- Counting over the items of one row. -/
theorem itemsFold_counts (fetch : Str → Option Str × Option Str) (row : Row) :
    ∀ items : List Str,
      ((items.foldl (handleItem fetch row) stEmpty).bookkeeping.length
         + (items.foldl (handleItem fetch row) stEmpty).incorrect.length
         = (items.filter (fun i => containsSub nameMarker i)).length)
      ∧ (items.foldl (handleItem fetch row) stEmpty).products.length
         = (items.foldl (handleItem fetch row) stEmpty).bookkeeping.length := by
  intro items
  induction items with
  | nil => simp [stEmpty]
  | cons i is ih =>
    obtain ⟨ih1, ih2⟩ := ih
    obtain ⟨d1, d2⟩ := itemDelta_counts fetch row i
    rw [itemsFold_cons]
    have hf : (List.filter (fun j => containsSub nameMarker j) (i :: is)).length
        = (if containsSub nameMarker i = true then 1 else 0)
          + (List.filter (fun j => containsSub nameMarker j) is).length := by
      by_cases hm : containsSub nameMarker i = true
      · simp [List.filter_cons, hm, Nat.add_comm]
      · simp [List.filter_cons, hm]
    constructor
    · rw [hf]
      simp only [St.append, List.length_append]
      by_cases hm : containsSub nameMarker i = true
      · rw [if_pos hm] at d1 ⊢
        omega
      · rw [if_neg hm] at d1 ⊢
        omega
    · simp only [St.append, List.length_append]
      omega

/-- Counting over the whole batch: candidates are partitioned exactly between
the bookkeeping rows and the rejected rows, and every bookkeeping row has its
products row. -/
theorem processRecords_counts (fetch : Str → Option Str × Option Str) :
    ∀ rows : List Row,
      ((processRecords fetch rows).bookkeeping.length
         + (processRecords fetch rows).incorrect.length = (candidateItems rows).length)
      ∧ (processRecords fetch rows).products.length
         = (processRecords fetch rows).bookkeeping.length := by
  intro rows
  induction rows with
  | nil => simp [processRecords, stEmpty, candidateItems]
  | cons r rs ih =>
    obtain ⟨ih1, ih2⟩ := ih
    obtain ⟨r1, r2⟩ := itemsFold_counts fetch r (pySplit newlineS r.message)
    rw [processRecords_cons, candidateItems_cons]
    have hr : rowDelta fetch r
        = (pySplit newlineS r.message).foldl (handleItem fetch r) stEmpty := rfl
    rw [hr]
    simp only [St.append, List.length_append]
    constructor <;> omega

/-- C8: on every exit path of the page fetcher - normal return, missing-marker
sentinel, and exception - the event trace ends with the teardown of the
rendering context (the exit of the `with sync_playwright()` block, which
closes every browser launched from it; the success path additionally runs the
explicit `browser.close()`), so the call never returns with the rendering
context still open. -/
theorem C8_context_teardown : ∀ env : FetchEnv,
    (fetchTrace env).getLast? = some FEvent.playwrightStop
    ∧ ∃ e ∈ fetchTrace env, closesContext e = true := by
  intro env
  obtain ⟨g, r, p, re, pe⟩ := env
  cases g <;> cases r <;> cases p <;>
    exact ⟨rfl, FEvent.playwrightStop, by simp [fetchTrace, fetchWithTrace], rfl⟩

/-- C7: after the full pass, each of the two bookkeeping ledgers (the
partition of the ledger entries by the vendor link-substring tests) is
non-decreasing by date: every pair of consecutive rows satisfies the
lexicographic date comparison used by the sort. -/
theorem C7_ledgers_sorted : ∀ (fetch : Str → Option Str × Option Str) (rows : List Row),
    List.Chain' (fun a b : BkRow => strLe a.date b.date = true)
      (process_csv fetch rows).infinity_bookkeeping
    ∧ List.Chain' (fun a b : BkRow => strLe a.date b.date = true)
      (process_csv fetch rows).gw_bookkeeping := by
  intro fetch rows
  have htot : ∀ a b : BkRow, dateLeB a b = true ∨ dateLeB b a = true := fun a b =>
    strLe_total a.date b.date
  exact ⟨chain'_sortBy dateLeB htot _, chain'_sortBy dateLeB htot _⟩

/-- C2 counterexample: in an environment where the reference marker never
appears within the bounded wait (`refAppears = false`, so `wait_for_selector`
raises a caught `TimeoutError`), the call returns `(none, none)`; the
reference field of the pair is absent, not the sentinel string the claim
promises for a marker that is absent after the bounded wait. -/
theorem C2_counterexample :
    envTimeout.refAppears = false
    ∧ fetch_product_details envTimeout = (none, none)
    ∧ (fetch_product_details envTimeout).1 ≠ some refSentinel := by
  refine ⟨rfl, rfl, ?_⟩
  decide

/-- C2 amended: any exception on navigation, and the `TimeoutError` raised
when either marker fails to appear within the bounded wait, is caught and the
call returns `(absent, absent)`; the sentinel strings are substituted only
when both waits succeed and `query_selector` then finds no element at
extraction time. -/
theorem C2_fetch_amended : ∀ env : FetchEnv,
    ((env.gotoOk = false ∨ env.refAppears = false ∨ env.priceAppears = false) →
      fetch_product_details env = (none, none))
    ∧ (env.gotoOk = true → env.refAppears = true → env.priceAppears = true →
        fetch_product_details env = (some (refResult env), some (priceResult env))
        ∧ (env.refElem = none → refResult env = refSentinel)
        ∧ (env.priceElem = none → priceResult env = priceSentinel)) := by
  intro env
  obtain ⟨g, r, p, re, pe⟩ := env
  constructor
  · rintro (h | h | h) <;> subst h
    · rfl
    · cases g <;> rfl
    · cases g <;> cases r <;> rfl
  · intro h1 h2 h3
    subst h1
    subst h2
    subst h3
    exact ⟨rfl, fun hre => by subst hre; rfl, fun hpe => by subst hpe; rfl⟩

/-- Witness for the amended C2 statement at two concrete environments. -/
theorem C2_fetch_amended_witness :
    fetch_product_details envTimeout = (none, none)
    ∧ fetch_product_details envRefMissing
        = (some (refResult envRefMissing), some (priceResult envRefMissing))
    ∧ refResult envRefMissing = refSentinel :=
  ⟨(C2_fetch_amended envTimeout).1 (Or.inr (Or.inl rfl)),
   ((C2_fetch_amended envRefMissing).2 rfl rfl rfl).1,
   ((C2_fetch_amended envRefMissing).2 rfl rfl rfl).2.1 rfl⟩

/-- C1 (code bug, concrete run): the fetch returns the sentinel reference
together with a real price; the orchestrator's falsiness check does not catch
the sentinel (a non-empty string is truthy), so the item is appended to the
Corvus Belli supplier table with `Reference not found` in the reference
column and to the ledger, and the rejected table stays empty - although the
fetcher itself logs this very outcome as a failure. -/
theorem C1_sentinel_included_eval :
    fetch_product_details envRefMissing = (some refSentinel, some "45,00 €".data)
    ∧ (process_csv sentinelFetch corvusRows).incorrect = []
    ∧ (process_csv sentinelFetch corvusRows).corvus_belli = [corvusProdRow]
    ∧ (process_csv sentinelFetch corvusRows).infinity_bookkeeping ≠ [] := by
  exact ⟨rfl, rfl, rfl, by decide⟩

/-- C9: the link-format validation is exactly the four-character prefix test
`startswith('http')`: it accepts any link extending `http`, including the
non-URL `httpgarbage`, whose item is accepted into the products and
bookkeeping accumulators rather than rejected. -/
theorem C9_http_only_check :
    (∀ link : Str, linkFormatOk link = true ↔ ∃ t, link = httpMark ++ t)
    ∧ linkFormatOk garbageLink = true
    ∧ (∀ (fetch : Str → Option Str × Option Str) (row : Row) (st : St),
        handleItem fetch row st garbageItem =
          { st with
              products := st.products ++
                [[PyVal.str "Gadget".data, PyVal.int 3, PyVal.str garbageLink]],
              bookkeeping := st.bookkeeping ++
                [⟨"Gadget".data, 3, row.customer, format_phone_number row.phone,
                  row.date, garbageLink⟩] }) := by
  refine ⟨?_, by decide, ?_⟩
  · intro link
    exact leadsWith_iff httpMark link
  · intro fetch row st
    rfl

/-- C3: failures are contained per item.  Batch processing is local - the
state after a concatenation of records is the concatenation of each part's
contribution, and each row only appends its own contribution - and an item
whose processing raises is turned into exactly one appended rejected row,
leaving the rest of the state untouched; the (total) run always produces its
output tables. -/
theorem C3_failure_containment :
    (∀ (fetch : Str → Option Str × Option Str) (xs ys : List Row),
      processRecords fetch (xs ++ ys)
        = St.append (processRecords fetch xs) (processRecords fetch ys))
    ∧ (∀ (fetch : Str → Option Str × Option Str) (st : St) (row : Row),
      handleRow fetch st row = St.append st (rowDelta fetch row))
    ∧ (∀ (fetch : Str → Option Str × Option Str) (row : Row) (st : St) (item : Str)
        (e : ItemErr), containsSub nameMarker item = true →
        processItemInner fetch item = .error e →
        handleItem fetch row st item =
          { st with incorrect := st.incorrect ++ [rejRow row item] }) := by
  refine ⟨processRecords_append, handleRow_delta, ?_⟩
  intro fetch row st item e hm he
  simp [handleItem, hm, he]

/-- Witness for the per-item containment part of C3: an unparsable candidate
item is turned into exactly one rejected row. -/
theorem C3_failure_containment_witness :
    handleItem trivFetch rowW stEmpty brokenItem =
      { stEmpty with incorrect := stEmpty.incorrect ++ [rejRow rowW brokenItem] } :=
  C3_failure_containment.2.2 trivFetch rowW stEmpty brokenItem ItemErr.indexError rfl rfl

/-- C4 counterexample: a syntactically valid candidate item whose link matches
neither vendor substring is accepted by the routing (it is not rejected), yet
it appears in none of the five output tables - the output-side partition is
not exhaustive, so the candidate is lost. -/
theorem C4_counterexample :
    containsSub nameMarker neutralItemText = true
    ∧ (∃ rOk, processItemInner trivFetch neutralItemText = .ok rOk)
    ∧ (process_csv trivFetch neutralRows).corvus_belli = []
    ∧ (process_csv trivFetch neutralRows).games_workshop = []
    ∧ (process_csv trivFetch neutralRows).infinity_bookkeeping = []
    ∧ (process_csv trivFetch neutralRows).gw_bookkeeping = []
    ∧ (process_csv trivFetch neutralRows).incorrect = [] :=
  ⟨rfl, ⟨_, rfl⟩, rfl, rfl, rfl, rfl, rfl⟩

/-- C4 amended: at the routing stage the candidates partition exhaustively and
disjointly - their count is exactly the bookkeeping rows plus the rejected
rows, each bookkeeping row has its products row, and the written rejected
table is the rejected accumulator - but an accepted item whose link contains
neither vendor marker is dropped from both written ledgers (and, by the
index-2 filters, from both supplier tables). -/
theorem C4_partition_amended :
    ∀ (fetch : Str → Option Str × Option Str) (rows : List Row),
      ((candidateItems rows).length
         = (processRecords fetch rows).bookkeeping.length
           + (processRecords fetch rows).incorrect.length)
      ∧ (processRecords fetch rows).products.length
          = (processRecords fetch rows).bookkeeping.length
      ∧ (process_csv fetch rows).incorrect = (processRecords fetch rows).incorrect
      ∧ (∀ r ∈ (processRecords fetch rows).bookkeeping,
          containsSub corvusBkMark r.link = false → containsSub warMark r.link = false →
          r ∉ (process_csv fetch rows).infinity_bookkeeping
            ∧ r ∉ (process_csv fetch rows).gw_bookkeeping) := by
  intro fetch rows
  obtain ⟨c1, c2⟩ := processRecords_counts fetch rows
  refine ⟨c1.symm, c2, rfl, ?_⟩
  intro r hr hcb hwar
  have hinf : (process_csv fetch rows).infinity_bookkeeping
      = sortBy dateLeB ((processRecords fetch rows).bookkeeping.filter
          (fun x => containsSub corvusBkMark x.link)) := rfl
  have hgw : (process_csv fetch rows).gw_bookkeeping
      = sortBy dateLeB ((processRecords fetch rows).bookkeeping.filter
          (fun x => containsSub warMark x.link)) := rfl
  constructor
  · intro hmem
    rw [hinf] at hmem
    have hf := (List.mem_filter.mp ((mem_sortBy dateLeB r _).mp hmem)).2
    rw [hcb] at hf
    exact Bool.noConfusion hf
  · intro hmem
    rw [hgw] at hmem
    have hf := (List.mem_filter.mp ((mem_sortBy dateLeB r _).mp hmem)).2
    rw [hwar] at hf
    exact Bool.noConfusion hf

/-- Witness for the amended C4 statement: the accepted neutral-link row is in
neither written ledger. -/
theorem C4_partition_amended_witness :
    neutralBkRow ∉ (process_csv trivFetch neutralRows).infinity_bookkeeping
    ∧ neutralBkRow ∉ (process_csv trivFetch neutralRows).gw_bookkeeping :=
  (C4_partition_amended trivFetch neutralRows).2.2.2 neutralBkRow (by decide) rfl rfl

/-- C6: a candidate item whose quantity field is non-numeric or parses to an
integer at most 0, or whose parsed link does not start with the URL scheme
prefix, is appended - with its raw text verbatim - to the rejected accumulator
and to nothing else. -/
theorem C6_invalid_rejected :
    ∀ (fetch : Str → Option Str × Option Str) (row : Row) (st : St) (item : Str),
      containsSub nameMarker item = true →
      ((parseQty item = .error .badInt
          ∨ (∃ qv : Int, parseQty item = .ok qv ∧ qv ≤ 0))
        ∨ (∃ l, parseLink item = .ok l ∧ linkFormatOk l = false)) →
      handleItem fetch row st item =
        { st with incorrect := st.incorrect ++ [rejRow row item] } := by
  intro fetch row st item hm hbad
  suffices h : ∃ e, processItemInner fetch item = .error e by
    obtain ⟨e, he⟩ := h
    simp [handleItem, hm, he]
  cases hn : parseName item with
  | error e => exact ⟨e, by simp [processItemInner, hn]⟩
  | ok name =>
    cases hl : parseLink item with
    | error e => exact ⟨e, by simp [processItemInner, hn, hl]⟩
    | ok link =>
      cases hq : parseQty item with
      | error e => exact ⟨e, by simp [processItemInner, hn, hl, hq]⟩
      | ok qv =>
        have hbad2 : qv ≤ 0 ∨ linkFormatOk link = false := by
          rcases hbad with (hb | ⟨qv2, hq2, hle⟩) | ⟨l2, hl2, hf⟩
          · rw [hq] at hb
            exact Except.noConfusion hb
          · rw [hq] at hq2
            injection hq2 with hqe
            exact Or.inl (hqe ▸ hle)
          · rw [hl] at hl2
            injection hl2 with hle2
            exact Or.inr (hle2 ▸ hf)
        by_cases hfmt : linkFormatOk link = false
        · exact ⟨.linkNotHttp, by simp [processItemInner, hn, hl, hq, hfmt]⟩
        · have hqle : qv ≤ 0 := hbad2.resolve_right hfmt
          have hcond : link = [] ∨ name = [] ∨ qv ≤ 0 := Or.inr (Or.inr hqle)
          exact ⟨.invalidData, by simp [processItemInner, hn, hl, hq, hfmt, hcond]⟩

/-- Witness for C6: the item with quantity `-1` lands as one rejected row
carrying its raw text. -/
theorem C6_invalid_rejected_witness :
    handleItem trivFetch rowW stEmpty badQtyItem =
      { stEmpty with incorrect := stEmpty.incorrect ++ [rejRow rowW badQtyItem] } :=
  C6_invalid_rejected trivFetch rowW stEmpty badQtyItem rfl
    (Or.inl (Or.inr ⟨-1, rfl, by decide⟩))

/-- C10: every row of the products accumulator - 5-field enriched or 3-field
direct - stores the item's link at index 2, and membership in each written
supplier table is exactly the corresponding vendor-substring test on that
index-2 link. -/
theorem C10_link_index :
    ∀ (fetch : Str → Option Str × Option Str) (rows : List Row) (p : List PyVal),
      p ∈ (processRecords fetch rows).products →
      ∃ link : Str,
        p[2]? = some (PyVal.str link)
        ∧ (p.length = 5 ∨ p.length = 3)
        ∧ (p ∈ (process_csv fetch rows).corvus_belli ↔ containsSub corvusMark link = true)
        ∧ (p ∈ (process_csv fetch rows).games_workshop ↔ containsSub warMark link = true) := by
  intro fetch rows p hp
  obtain ⟨link, h2, hlen⟩ := products_shape fetch rows p hp
  have hs1 : strAt2Contains corvusMark p = containsSub corvusMark link := by
    unfold strAt2Contains
    rw [h2]
  have hs2 : strAt2Contains warMark p = containsSub warMark link := by
    unfold strAt2Contains
    rw [h2]
  have hcb : (process_csv fetch rows).corvus_belli
      = (processRecords fetch rows).products.filter (strAt2Contains corvusMark) := rfl
  have hgw : (process_csv fetch rows).games_workshop
      = (processRecords fetch rows).products.filter (strAt2Contains warMark) := rfl
  refine ⟨link, h2, hlen, ?_, ?_⟩
  · rw [hcb, List.mem_filter, hs1]
    exact ⟨fun h => h.2, fun h => ⟨hp, h⟩⟩
  · rw [hgw, List.mem_filter, hs2]
    exact ⟨fun h => h.2, fun h => ⟨hp, h⟩⟩

/-- Witness for C10 at the concrete enriched row of the sentinel run. -/
theorem C10_link_index_witness :
    ∃ link : Str,
      corvusProdRow[2]? = some (PyVal.str link)
      ∧ (corvusProdRow.length = 5 ∨ corvusProdRow.length = 3)
      ∧ (corvusProdRow ∈ (process_csv sentinelFetch corvusRows).corvus_belli
          ↔ containsSub corvusMark link = true)
      ∧ (corvusProdRow ∈ (process_csv sentinelFetch corvusRows).games_workshop
          ↔ containsSub warMark link = true) :=
  C10_link_index sentinelFetch corvusRows corvusProdRow (by decide)

/-- The rendering of a positive quantity is a nonempty digit string. -/
theorem intRepr_pos_digits (q : Int) (hq : 0 < q) :
    intRepr q ≠ [] ∧ (∀ c ∈ intRepr q, isDig c = true) := by
  have hql : ¬ q < 0 := by omega
  rw [intRepr, if_neg hql]
  exact ⟨(natRepr_spec q.toNat).1, (natRepr_spec q.toNat).2.1⟩

/-- The quantity label does not occur inside the rendered digits. -/
theorem containsSub_qtyLabel_intRepr (q : Int) (hq : 0 < q) :
    containsSub qtyLabel (intRepr q) = false := by
  cases hx : containsSub qtyLabel (intRepr q) with
  | false => rfl
  | true =>
    have hmem : 'P' ∈ intRepr q := mem_of_containsSub hx (by decide)
    have hdig := (intRepr_pos_digits q hq).2 'P' hmem
    exact absurd hdig (by decide)

/-- Stripping is the identity on the rendered digits. -/
theorem pyStrip_intRepr (q : Int) (hq : 0 < q) : pyStrip (intRepr q) = intRepr q :=
  pyStrip_of_no_ws _ (fun c hc => isDig_not_ws ((intRepr_pos_digits q hq).2 c hc))

/-- C5: round-trip of the line-item parser.  For every (name, link, quantity)
triple rendered in the fixed label format - values trimmed, quantity a
positive integer, and (the well-formedness the format presupposes, stated as
the occurrence side conditions h1-h6) no label or separator occurring inside
or straddling the embedded values - the parser recovers exactly the embedded
triple. -/
theorem C5_parser_roundtrip (n l : Str) (q : Int) (hq : 0 < q)
    (hn : pyStrip n = n) (hl : pyStrip l = l)
    (h1 : containsSub nameLabel (n ++ (linkFull ++ (l ++ (qtyFull ++ intRepr q)))) = false)
    (h2 : containsSub linkSep (List.dropLast (n ++ linkSep)) = false)
    (h3 : containsSub linkLabel
        (List.dropLast ((nameLabel ++ (n ++ commaSpace)) ++ linkLabel)) = false)
    (h4 : containsSub linkLabel (l ++ (qtyFull ++ intRepr q)) = false)
    (h5 : containsSub qtySep (List.dropLast (l ++ qtySep)) = false)
    (h6 : containsSub qtyLabel
        (List.dropLast ((nameLabel ++ (n ++ (linkFull ++ (l ++ commaSpace)))) ++ qtyLabel))
        = false) :
    parse_product_item (renderItem n l q) = .ok (n, l, q) := by
  have hitem1 : renderItem n l q
      = nameLabel ++ (n ++ (linkFull ++ (l ++ (qtyFull ++ intRepr q)))) := by
    simp [renderItem, List.append_assoc]
  have hsplit1 : pySplit nameLabel (renderItem n l q)
      = [[], n ++ (linkFull ++ (l ++ (qtyFull ++ intRepr q)))] := by
    rw [hitem1]
    have hg := pySplit_glue nameLabel []
        (n ++ (linkFull ++ (l ++ (qtyFull ++ intRepr q)))) (by decide) (by decide)
    simp only [List.nil_append] at hg
    rw [hg, pySplit_of_not_sub nameLabel (by decide) _ h1]
  have hname : parseName (renderItem n l q) = .ok n := by
    unfold parseName
    rw [hsplit1]
    show Except.ok
        (pyStrip ((pySplit linkSep (n ++ (linkFull ++ (l ++ (qtyFull ++ intRepr q))))).headD []))
      = Except.ok n
    have hb : n ++ (linkFull ++ (l ++ (qtyFull ++ intRepr q)))
        = n ++ (linkSep ++ (" / 商品網址: ".data ++ (l ++ (qtyFull ++ intRepr q)))) := by
      have hfl : linkFull = linkSep ++ " / 商品網址: ".data := by decide
      rw [hfl, List.append_assoc]
    rw [hb, pySplit_glue linkSep n
        (" / 商品網址: ".data ++ (l ++ (qtyFull ++ intRepr q))) (by decide) h2]
    show Except.ok (pyStrip n) = Except.ok n
    rw [hn]
  have hitem2 : renderItem n l q
      = (nameLabel ++ (n ++ commaSpace)) ++ (linkLabel ++ (l ++ (qtyFull ++ intRepr q))) := by
    have hcl : commaSpace ++ linkLabel = linkFull := by decide
    calc renderItem n l q
        = nameLabel ++ (n ++ (linkFull ++ (l ++ (qtyFull ++ intRepr q)))) := hitem1
      _ = (nameLabel ++ (n ++ commaSpace)) ++ (linkLabel ++ (l ++ (qtyFull ++ intRepr q))) := by
          rw [← hcl]
          simp [List.append_assoc]
  have hsplit2 : pySplit linkLabel (renderItem n l q)
      = [nameLabel ++ (n ++ commaSpace), l ++ (qtyFull ++ intRepr q)] := by
    rw [hitem2, pySplit_glue linkLabel (nameLabel ++ (n ++ commaSpace))
        (l ++ (qtyFull ++ intRepr q)) (by decide) h3,
      pySplit_of_not_sub linkLabel (by decide) _ h4]
  have hlink : parseLink (renderItem n l q) = .ok l := by
    unfold parseLink
    rw [hsplit2]
    show Except.ok (pyStrip ((pySplit qtySep (l ++ (qtyFull ++ intRepr q))).headD []))
      = Except.ok l
    have hb : l ++ (qtyFull ++ intRepr q)
        = l ++ (qtySep ++ (" / 所需數量: ".data ++ intRepr q)) := by
      have hfq : qtyFull = qtySep ++ " / 所需數量: ".data := by decide
      rw [hfq, List.append_assoc]
    rw [hb, pySplit_glue qtySep l (" / 所需數量: ".data ++ intRepr q) (by decide) h5]
    show Except.ok (pyStrip l) = Except.ok l
    rw [hl]
  have hitem3 : renderItem n l q
      = (nameLabel ++ (n ++ (linkFull ++ (l ++ commaSpace)))) ++ (qtyLabel ++ intRepr q) := by
    have hcq : commaSpace ++ qtyLabel = qtyFull := by decide
    calc renderItem n l q
        = nameLabel ++ (n ++ (linkFull ++ (l ++ (qtyFull ++ intRepr q)))) := hitem1
      _ = (nameLabel ++ (n ++ (linkFull ++ (l ++ commaSpace)))) ++ (qtyLabel ++ intRepr q) := by
          rw [← hcq]
          simp [List.append_assoc]
  have hsplit3 : pySplit qtyLabel (renderItem n l q)
      = [nameLabel ++ (n ++ (linkFull ++ (l ++ commaSpace))), intRepr q] := by
    rw [hitem3, pySplit_glue qtyLabel (nameLabel ++ (n ++ (linkFull ++ (l ++ commaSpace))))
        (intRepr q) (by decide) h6,
      pySplit_of_not_sub qtyLabel (by decide) _ (containsSub_qtyLabel_intRepr q hq)]
  have hqty : parseQty (renderItem n l q) = .ok q := by
    unfold parseQty
    rw [hsplit3]
    show (match pyInt (pyStrip (intRepr q)) with
          | none => Except.error ItemErr.badInt
          | some q2 => Except.ok q2) = Except.ok q
    rw [pyStrip_intRepr q hq, pyInt_intRepr q hq]
  unfold parse_product_item
  rw [hname, hlink, hqty]

/-- Witness for C5 at a concrete well-formed triple. -/
theorem C5_parser_roundtrip_witness :
    parse_product_item (renderItem "Figure A".data "http://warhammer.example/x".data 2)
      = .ok ("Figure A".data, "http://warhammer.example/x".data, 2) :=
  C5_parser_roundtrip "Figure A".data "http://warhammer.example/x".data 2 (by decide)
    (by decide) (by decide) (by decide) (by decide) (by decide) (by decide) (by decide)
    (by decide)
